import Mathlib

/-!
Verification of the rightmove-api core design against its specification.

The repository's scraping backend (stream decoder, reference resolver,
resilient fetcher, merge/upsert engine) is described in the design
specification; the frontend (React hooks and components) is present as
TypeScript source.  Below, each component the claims touch is embedded
shallowly: pure functions become Lean functions, the async frontend hook
becomes an explicit effect-trace function, and fallible operations return
`Except`/`Option`.
-/

set_option autoImplicit false

namespace RightmoveApi

/-! ## Merge/Upsert Engine (spec §4.5, §3)

Modelled from the spec: the merge/upsert engine itself is backend code not
present under `src/`; the definitions below follow §4.5 of the design
document ("apply", field-level merge rule, sale deduplication keyed by
(property, date_sold, price)) and the §3 data model. -/

/-- Modelled from the spec: `SaleCandidate` — date_sold and price are
free-text strings forming (with the property) the sale's identity tuple;
the remaining fields are optional free-text attributes. -/
structure SaleCandidate where
  date_sold : String
  price : String
  price_change_pct : Option String
  property_type_at_sale : Option String
  tenure : Option String
  deriving Repr, DecidableEq

/-- Modelled from the spec: `PropertyCandidate` — address is the natural
key; the other scalar fields are optional, the two URL/feature lists are
ordered lists of strings, and `sales` is the ordered list of extracted
sale candidates. -/
structure PropertyCandidate where
  address : String
  postcode : Option String
  property_type : Option String
  bedrooms : Option Nat
  bathrooms : Option Nat
  url : Option String
  extra_features : List String
  floorplan_urls : List String
  sales : List SaleCandidate
  deriving Repr, DecidableEq

/-- Modelled from the spec: `PersistedSale`, the store-side counterpart of
a sale candidate.  Identity for deduplication is (date_sold, price). -/
structure PersistedSale where
  date_sold : String
  price : String
  price_change_pct : Option String
  property_type_at_sale : Option String
  tenure : Option String
  deriving Repr, DecidableEq

/-- Modelled from the spec: `PersistedProperty`, the store-side property
row keyed by its normalized address, holding its persisted sales. -/
structure PersistedProperty where
  address : String
  postcode : Option String
  property_type : Option String
  bedrooms : Option Nat
  bathrooms : Option Nat
  url : Option String
  extra_features : List String
  floorplan_urls : List String
  sales : List PersistedSale
  deriving Repr, DecidableEq

/-- The persisted store: the merge engine only needs key-lookup-and-write
over property rows, modelled as the list of rows. -/
abbrev Store := List PersistedProperty

/-- Modelled from the spec: field-level merge rule for optional scalar
fields — "new value overwrites old only if new value is non-empty/non-null;
otherwise old value is preserved". -/
def mergeOptField {α : Type} (old new : Option α) : Option α :=
  match new with
  | none => old
  | some v => some v

/-- Modelled from the spec: field-level merge rule for optional string
fields, where an empty string counts as empty and preserves the old
value. -/
def mergeStrField (old new : Option String) : Option String :=
  match new with
  | none => old
  | some s => if s = "" then old else some s

/-- Modelled from the spec: field-level merge rule for list fields — an
empty candidate list is "empty" and preserves the old list. -/
def mergeListField (old new : List String) : List String :=
  match new with
  | [] => old
  | _ => new

/-- Modelled from the spec: merge a candidate into an existing persisted
property field-by-field; the address is the identity key and is kept from
the persisted row.  Sales are handled separately by per-sale
insert-if-absent. -/
def mergeProperty (old : PersistedProperty) (c : PropertyCandidate) : PersistedProperty :=
  { address := old.address
    postcode := mergeStrField old.postcode c.postcode
    property_type := mergeStrField old.property_type c.property_type
    bedrooms := mergeOptField old.bedrooms c.bedrooms
    bathrooms := mergeOptField old.bathrooms c.bathrooms
    url := mergeStrField old.url c.url
    extra_features := mergeListField old.extra_features c.extra_features
    floorplan_urls := mergeListField old.floorplan_urls c.floorplan_urls
    sales := old.sales }

/-- Deduplication identity of a sale within one property: the
(date_sold, price) tuple. -/
def saleKeyMem (sc : SaleCandidate) (sales : List PersistedSale) : Bool :=
  sales.any fun ps => ps.date_sold = sc.date_sold && ps.price = sc.price

/-- Modelled from the spec: `insert_sale_if_absent` applied to one sale
candidate — insert keyed by (date_sold, price), skip on duplicate. -/
def insertSaleIfAbsent (sales : List PersistedSale) (sc : SaleCandidate) :
    List PersistedSale × Bool :=
  if saleKeyMem sc sales then (sales, false)
  else (sales ++ [⟨sc.date_sold, sc.price, sc.price_change_pct,
                  sc.property_type_at_sale, sc.tenure⟩], true)

/-- Modelled from the spec: attempt `insert_sale_if_absent` for every sale
candidate in order, counting how many were actually inserted. -/
def insertSales (sales : List PersistedSale) : List SaleCandidate → List PersistedSale × Nat
  | [] => (sales, 0)
  | sc :: rest =>
      let step := insertSaleIfAbsent sales sc
      let next := insertSales step.1 rest
      (next.1, (if step.2 then 1 else 0) + next.2)

/-- Modelled from the spec: a fresh property row built from a candidate
(absent-address branch of the upsert), with the given already-deduplicated
sales. -/
def newRow (addr : String) (c : PropertyCandidate) (sales : List PersistedSale) :
    PersistedProperty :=
  { address := addr
    postcode := c.postcode
    property_type := c.property_type
    bedrooms := c.bedrooms
    bathrooms := c.bathrooms
    url := c.url
    extra_features := c.extra_features
    floorplan_urls := c.floorplan_urls
    sales := sales }

/-- Replace the first row with the given address (the row `find_by_address`
returned) by the merged row, leaving all other rows untouched. -/
def replaceFirst : Store → String → PersistedProperty → Store
  | [], _, _ => []
  | q :: rest, addr, p2 =>
      if q.address = addr then p2 :: rest else q :: replaceFirst rest addr p2

/-- Result summary of one `apply` call of the merge/upsert engine. -/
structure ApplyResult where
  created : Bool
  sales_inserted : Nat
  invalid : Bool
  deriving Repr, DecidableEq

/-- Modelled from the spec: `apply(candidate)` — reject an empty address
before any store interaction; otherwise look up by normalized (trimmed)
address; if absent insert a new row and its sales, if present merge
field-by-field and insert each sale if absent. -/
def applyCand (s : Store) (c : PropertyCandidate) : ApplyResult × Store :=
  let addr := c.address.trim
  if addr = "" then ({ created := false, sales_inserted := 0, invalid := true }, s)
  else
    match s.find? fun p => p.address = addr with
    | none =>
        let r := insertSales [] c.sales
        ({ created := true, sales_inserted := r.2, invalid := false },
         s ++ [newRow addr c r.1])
    | some p =>
        let r := insertSales p.sales c.sales
        let merged := { mergeProperty p c with sales := r.1 }
        ({ created := false, sales_inserted := r.2, invalid := false },
         replaceFirst s addr merged)

/-- Total number of persisted sales across the whole store. -/
def totalSales (s : Store) : Nat :=
  (s.map fun p => p.sales.length).sum

/-! ## Reference Resolver (spec §4.2, §3)

Modelled from the spec: the resolver is backend code not present under
`src/`.  The source format emits values in a flat array whose later entries
may reference earlier ones by position; the resolver iterates the entries
once, building a growable index→value table, substituting the
already-resolved value for each `Reference(i)` and failing with
`DanglingReference` when `i` is out of range or not yet resolved. -/

/-- Numeric scalar: integers decoded as integers, everything else as a
(64-bit floating point, here exact rational) number. -/
inductive NumVal where
  | intVal (n : Int)
  | floatVal (q : ℚ)
  deriving Repr, DecidableEq

/-- A JSON-like scalar appearing in the stream. -/
inductive Scalar where
  | null
  | boolean (b : Bool)
  | num (n : NumVal)
  | str (s : String)
  deriving Repr, DecidableEq

mutual
/-- Modelled from the spec: one entry of the flat top-level array emitted
by the decoder, with its nesting structure grouped and positional
`ref` markers still unresolved. -/
inductive PreValue where
  | scalar (v : Scalar)
  | ref (i : Nat)
  | arr (xs : PreList)
  | obj (kvs : PreKvs)

/-- A list of unresolved values (spelled out so recursion stays
structural). -/
inductive PreList where
  | nil
  | cons (x : PreValue) (xs : PreList)

/-- A list of key/unresolved-value pairs. -/
inductive PreKvs where
  | nil
  | cons (k : String) (v : PreValue) (kvs : PreKvs)
end

/-- Modelled from the spec: `ResolvedValue` — a recursive variant over
Null, Bool, Number, String, List and Map; reference markers cannot occur
in it. -/
inductive ResolvedValue where
  | null
  | boolean (b : Bool)
  | number (n : NumVal)
  | string (s : String)
  | list (xs : List ResolvedValue)
  | map (kvs : List (String × ResolvedValue))

/-- Modelled from the spec: `ResolveError` — its only kind is
`DanglingReference`. -/
inductive ResolveError where
  | danglingReference
  deriving Repr, DecidableEq

/-- Scalars resolve to themselves. -/
def scalarToResolved : Scalar → ResolvedValue
  | .null => .null
  | .boolean b => .boolean b
  | .num n => .number n
  | .str s => .string s

mutual
/-- Modelled from the spec: resolve one entry against the table of
already-resolved values; a `ref i` outside the table is a
`DanglingReference`. -/
def resolvePre (table : List ResolvedValue) : PreValue → Except ResolveError ResolvedValue
  | .scalar v => .ok (scalarToResolved v)
  | .ref i =>
      match table.get? i with
      | some v => .ok v
      | none => .error .danglingReference
  | .arr xs =>
      match resolvePreList table xs with
      | .ok vs => .ok (.list vs)
      | .error e => .error e
  | .obj kvs =>
      match resolvePreKvs table kvs with
      | .ok vs => .ok (.map vs)
      | .error e => .error e

/-- Resolve every element of a nested list. -/
def resolvePreList (table : List ResolvedValue) : PreList → Except ResolveError (List ResolvedValue)
  | .nil => .ok []
  | .cons x xs =>
      match resolvePre table x with
      | .error e => .error e
      | .ok v =>
          match resolvePreList table xs with
          | .error e => .error e
          | .ok vs => .ok (v :: vs)

/-- Resolve every value of a nested key/value list. -/
def resolvePreKvs (table : List ResolvedValue) : PreKvs → Except ResolveError (List (String × ResolvedValue))
  | .nil => .ok []
  | .cons k v kvs =>
      match resolvePre table v with
      | .error e => .error e
      | .ok v2 =>
          match resolvePreKvs table kvs with
          | .error e => .error e
          | .ok vs => .ok ((k, v2) :: vs)
end

/-- Modelled from the spec: the single pass over the flat entry sequence,
growing the index→value table left to right. -/
def resolveGo (table : List ResolvedValue) : List PreValue → Except ResolveError (List ResolvedValue)
  | [] => .ok table
  | e :: es =>
      match resolvePre table e with
      | .error err => .error err
      | .ok v => resolveGo (table ++ [v]) es

/-- Modelled from the spec: `resolve(tokens)` over the grouped flat
entries, starting from an empty table. -/
def resolve (entries : List PreValue) : Except ResolveError (List ResolvedValue) :=
  resolveGo [] entries

mutual
/-- All reference indices inside an entry are below `bound`. -/
def refsBelow (bound : Nat) : PreValue → Bool
  | .scalar _ => true
  | .ref i => i < bound
  | .arr xs => refsBelowList bound xs
  | .obj kvs => refsBelowKvs bound kvs

/-- `refsBelow` over a nested list. -/
def refsBelowList (bound : Nat) : PreList → Bool
  | .nil => true
  | .cons x xs => refsBelow bound x && refsBelowList bound xs

/-- `refsBelow` over a nested key/value list. -/
def refsBelowKvs (bound : Nat) : PreKvs → Bool
  | .nil => true
  | .cons _ v kvs => refsBelow bound v && refsBelowKvs bound kvs
end

/-- Every entry's references point strictly before it, counting positions
from `k`. -/
def backwardOnlyFrom (k : Nat) : List PreValue → Bool
  | [] => true
  | e :: es => refsBelow k e && backwardOnlyFrom (k + 1) es

/-- A token sequence contains only backward references. -/
def backwardOnly (entries : List PreValue) : Bool :=
  backwardOnlyFrom 0 entries

mutual
/-- Index `j` occurs as a reference somewhere inside the entry. -/
def refMem (j : Nat) : PreValue → Bool
  | .scalar _ => false
  | .ref i => i = j
  | .arr xs => refMemList j xs
  | .obj kvs => refMemKvs j kvs

/-- `refMem` over a nested list. -/
def refMemList (j : Nat) : PreList → Bool
  | .nil => false
  | .cons x xs => refMem j x || refMemList j xs

/-- `refMem` over a nested key/value list. -/
def refMemKvs (j : Nat) : PreKvs → Bool
  | .nil => false
  | .cons _ v kvs => refMem j v || refMemKvs j kvs
end

/-- The reference graph of a flat entry sequence: entry `a` depends on
entry `b` when `b` occurs as a reference index inside entry `a`. -/
def RefEdge (entries : List PreValue) (a b : Nat) : Prop :=
  ∃ ha : a < entries.length, refMem b (entries.get ⟨a, ha⟩) = true

/-- A concrete stream with only backward references: the spec's scenario
`["hello",["$1",200],...]` where the reference points at index 0. -/
def demoBackwardEntries : List PreValue :=
  [.scalar (.str "hello"),
   .arr (.cons (.ref 0) (.cons (.scalar (.num (.intVal 200))) .nil))]

/-- `demoBackwardEntries` fully resolved. -/
def demoBackwardValues : List ResolvedValue :=
  [.string "hello",
   .list [.string "hello", .number (.intVal 200)]]

/-- A concrete stream whose first entry references a later position. -/
def demoForwardEntries : List PreValue :=
  [.ref 1, .scalar .null]

/-! ## Stream Token Decoder (spec §4.1)

Modelled from the spec: the decoder is backend code not present under
`src/`.  It concatenates all enqueued chunks in source order into one
logical stream, then tokenizes that stream with a single scan recognizing
JSON scalars, array/object delimiters and the `$n` reference marker,
failing with a typed `DecodeError`.  The scan is a character-level state
machine, so chunks can be fed one at a time. -/

/-- Modelled from the spec: `DecodeError` kinds. -/
inductive DecodeError where
  | malformedChunk
  | unterminatedStructure
  | unknownMarker
  deriving Repr, DecidableEq

/-- Modelled from the spec: `StreamToken`, the discriminated value emitted
by the decoder. -/
inductive StreamToken where
  | primitive (v : Scalar)
  | reference (i : Nat)
  | arrayOpen
  | arrayClose
  | objectOpen (key : String)
  | objectClose
  | error (msg : String)
  deriving Repr, DecidableEq

/-- Decimal digits to a natural number. -/
def digitsToNat (ds : List Char) : Nat :=
  ds.foldl (fun n c => n * 10 + (c.toNat - '0'.toNat)) 0

/-- Split a character list at the first occurrence of a separator. -/
def splitAtChar (sep : Char) : List Char → List Char × Option (List Char)
  | [] => ([], none)
  | c :: cs =>
      if c = sep then ([], some cs)
      else
        let r := splitAtChar sep cs
        (c :: r.1, r.2)

/-- Parse an optionally signed, non-empty all-digit literal. -/
def parseIntLit (cs : List Char) : Option Int :=
  match cs with
  | '-' :: rest =>
      if !rest.isEmpty && rest.all Char.isDigit then some (-(digitsToNat rest : Int))
      else none
  | _ =>
      if !cs.isEmpty && cs.all Char.isDigit then some (digitsToNat cs : Int)
      else none

/-- Apply a base-10 exponent to a rational mantissa. -/
def applyExp (q : ℚ) (cs : List Char) : Option ℚ :=
  match cs with
  | '-' :: rest =>
      if !rest.isEmpty && rest.all Char.isDigit then some (q / 10 ^ digitsToNat rest)
      else none
  | '+' :: rest =>
      if !rest.isEmpty && rest.all Char.isDigit then some (q * 10 ^ digitsToNat rest)
      else none
  | _ =>
      if !cs.isEmpty && cs.all Char.isDigit then some (q * 10 ^ digitsToNat cs)
      else none

/-- Parse an unsigned decimal mantissa (`digits` or `digits.digits`). -/
def parseMantissa (cs : List Char) : Option ℚ :=
  let (ip, fp?) := splitAtChar '.' cs
  match fp? with
  | none =>
      if !ip.isEmpty && ip.all Char.isDigit then some ((digitsToNat ip : ℚ)) else none
  | some fp =>
      if !ip.isEmpty && ip.all Char.isDigit && !fp.isEmpty && fp.all Char.isDigit then
        some ((digitsToNat ip : ℚ) + (digitsToNat fp : ℚ) / 10 ^ fp.length)
      else none

/-- Modelled from the spec's numeric semantics: a literal with no
fractional/exponent part decodes as an integer, anything else as a (here
exact) floating-point number. -/
def parseNumberLit (cs : List Char) : Option NumVal :=
  match parseIntLit cs with
  | some n => some (.intVal n)
  | none =>
      let (signless, neg) :=
        match cs with
        | '-' :: rest => (rest, true)
        | _ => (cs, false)
      let (mant, exp?) :=
        match splitAtChar 'e' signless with
        | (m, some e) => (m, some e)
        | (_, none) => splitAtChar 'E' signless
      let q? :=
        match exp? with
        | none => parseMantissa mant
        | some e =>
            match parseMantissa mant with
            | none => none
            | some m => applyExp m e
      match q? with
      | none => none
      | some q => some (.floatVal (if neg then -q else q))

/-- Classify a bare (unquoted) literal into a primitive token. -/
def classifyLit (cs : List Char) : Except DecodeError StreamToken :=
  if cs = ['n', 'u', 'l', 'l'] then .ok (.primitive .null)
  else if cs = ['t', 'r', 'u', 'e'] then .ok (.primitive (.boolean true))
  else if cs = ['f', 'a', 'l', 's', 'e'] then .ok (.primitive (.boolean false))
  else
    match parseNumberLit cs with
    | some n => .ok (.primitive (.num n))
    | none => .error .malformedChunk

/-- Decoder state, carried character to character (and so across chunk
boundaries). -/
structure DecState where
  inStr : Bool
  esc : Bool
  strAcc : List Char
  litAcc : List Char
  pendingStr : Option String
  depth : List Bool
  toks : List StreamToken
  err : Option DecodeError
  deriving Repr, DecidableEq

/-- The state before any character has been consumed. -/
def initState : DecState :=
  { inStr := false, esc := false, strAcc := [], litAcc := [],
    pendingStr := none, depth := [], toks := [], err := none }

/-- Emit the pending bare literal, if any. -/
def emitLit (st : DecState) : DecState :=
  match st.litAcc with
  | [] => st
  | cs =>
      match classifyLit cs.reverse with
      | .ok t => { st with litAcc := [], toks := t :: st.toks }
      | .error e => { st with litAcc := [], err := some e }

/-- Emit the pending closed string as a string primitive, if any. -/
def emitPending (st : DecState) : DecState :=
  match st.pendingStr with
  | none => st
  | some s => { st with pendingStr := none, toks := .primitive (.str s) :: st.toks }

/-- Flush whatever value is pending before a delimiter. -/
def flushVal (st : DecState) : DecState :=
  emitLit (emitPending st)

/-- Close a quoted string: a `$n` marker becomes a `reference` token, a
malformed `$…` marker is an `UnknownMarker` error, and any other content
is held back since it may turn out to be an object key. -/
def closeStr (st : DecState) : DecState :=
  match st.strAcc.reverse with
  | '$' :: rest =>
      if !rest.isEmpty && rest.all Char.isDigit then
        { st with inStr := false, strAcc := [],
                  toks := .reference (digitsToNat rest) :: st.toks }
      else { st with inStr := false, strAcc := [], err := some .unknownMarker }
  | cs => { st with inStr := false, strAcc := [], pendingStr := some (String.mk cs) }

/-- One character of the tokenizing scan. -/
def decStep (st : DecState) (c : Char) : DecState :=
  if st.err.isSome then st
  else if st.inStr then
    if st.esc then { st with strAcc := c :: st.strAcc, esc := false }
    else if c = '\\' then { st with esc := true }
    else if c = '"' then closeStr st
    else { st with strAcc := c :: st.strAcc }
  else if c = '"' then
    let st1 := flushVal st
    { st1 with inStr := true, strAcc := [] }
  else if c = ':' then
    match st.pendingStr with
    | some k => { st with pendingStr := none, toks := .objectOpen k :: st.toks }
    | none => { st with err := some .malformedChunk }
  else if c = ',' then flushVal st
  else if c = '[' then
    let st1 := flushVal st
    { st1 with toks := .arrayOpen :: st1.toks, depth := true :: st1.depth }
  else if c = ']' then
    let st1 := flushVal st
    match st1.depth with
    | true :: rest => { st1 with toks := .arrayClose :: st1.toks, depth := rest }
    | _ => { st1 with err := some .malformedChunk }
  else if c = '{' then
    let st1 := flushVal st
    { st1 with depth := false :: st1.depth }
  else if c = '}' then
    let st1 := flushVal st
    match st1.depth with
    | false :: rest => { st1 with toks := .objectClose :: st1.toks, depth := rest }
    | _ => { st1 with err := some .malformedChunk }
  else if c.isWhitespace then emitLit st
  else { st with litAcc := c :: st.litAcc }

/-- Finish the scan: report a recorded error, an unterminated string or
structure, otherwise the token sequence in source order. -/
def decFinish (st : DecState) : Except DecodeError (List StreamToken) :=
  match st.err with
  | some e => .error e
  | none =>
      if st.inStr then .error .unterminatedStructure
      else
        let st1 := flushVal st
        match st1.err with
        | some e => .error e
        | none =>
            if st1.depth.isEmpty then .ok st1.toks.reverse
            else .error .unterminatedStructure

/-- Modelled from the spec: `decode(raw)` — tokenize one already
concatenated logical stream. -/
def decode (raw : String) : Except DecodeError (List StreamToken) :=
  decFinish (raw.data.foldl decStep initState)

/-- Feed one enqueued chunk into the scan state. -/
def feedChunk (st : DecState) (chunk : String) : DecState :=
  chunk.data.foldl decStep st

/-- Modelled from the spec: decode a sequence of enqueued chunks as one
logical stream, feeding them to the scan in source order. -/
def decodeChunks (chunks : List String) : Except DecodeError (List StreamToken) :=
  decFinish (chunks.foldl feedChunk initState)

/-! ## Resilient Fetcher (spec §4.4)

Modelled from the spec: the fetcher is backend code not present under
`src/`.  Per request it runs `Attempting → {Success, Retrying, Exhausted}`:
on HTTP 429/5xx or a connection/timeout error it waits
`base_backoff * 2^attempt` (capped, jittered) and retries up to the
configured attempt ceiling, returning `Exhausted(last_status)` on
exhaustion.  The HTTP layer is an oracle from attempt index to outcome and
the jitter is an explicit stream, so the wait schedule is observable. -/

/-- Modelled from the spec: retry/backoff configuration. -/
structure FetchConfig where
  retry_attempts : Nat
  base_backoff : Nat
  backoff_cap : Nat
  deriving Repr, DecidableEq

/-- Outcome of one HTTP attempt. -/
inductive HttpOutcome where
  | status (code : Nat)
  | connFailure
  deriving Repr, DecidableEq

/-- Result of a whole fetch. -/
inductive FetchResult where
  | success (code : Nat)
  | exhausted (last : HttpOutcome)
  deriving Repr, DecidableEq

/-- Modelled from the spec: HTTP 429, any 5xx, and connection/timeout
errors are retried. -/
def retryable : HttpOutcome → Bool
  | .status c => c = 429 || (500 ≤ c && c < 600)
  | .connFailure => true

/-- Modelled from the spec: the capped exponential backoff schedule
`base_backoff * 2^attempt`. -/
def backoffDelay (cfg : FetchConfig) (attempt : Nat) : Nat :=
  min cfg.backoff_cap (cfg.base_backoff * 2 ^ attempt)

/-- Observable trace of one fetch: its result, how many attempts it made,
and the waits it slept before each retry, in order. -/
structure FetchTrace where
  result : FetchResult
  attemptsMade : Nat
  waits : List Nat
  deriving Repr, DecidableEq

/-- Modelled from the spec: the retry loop — `retriesLeft` retries remain
after the current attempt; a retryable outcome with no retries left is
`Exhausted` carrying the last outcome. -/
def fetchGo (cfg : FetchConfig) (oracle : Nat → HttpOutcome) (jitter : Nat → Nat) :
    Nat → Nat → List Nat → FetchTrace
  | retriesLeft, attempt, waits =>
      let o := oracle attempt
      if retryable o then
        match retriesLeft with
        | 0 => { result := .exhausted o, attemptsMade := attempt + 1, waits := waits }
        | m + 1 =>
            fetchGo cfg oracle jitter m (attempt + 1)
              (waits ++ [backoffDelay cfg attempt + jitter attempt])
      else
        { result :=
            match o with
            | .status c => .success c
            | .connFailure => .exhausted o,
          attemptsMade := attempt + 1, waits := waits }

/-- Modelled from the spec: `fetch` issues attempt 0 and retries up to the
`retry_attempts` ceiling. -/
def fetch (cfg : FetchConfig) (oracle : Nat → HttpOutcome) (jitter : Nat → Nat) :
    FetchTrace :=
  fetchGo cfg oracle jitter cfg.retry_attempts 0 []

/-! ## Frontend: link_count sentinel mapping (src/frontend/src/hooks/usePostcodeSearch.ts) -/

/-- From the source (`usePostcodeSearch.ts`): map the UI linkCount —
`0` = Off (fast) becomes an omitted parameter, `-1` = All becomes `0`,
anything else passes through. -/
def apiLinkCount (linkCount : Int) : Option Int :=
  if linkCount = 0 then none
  else if linkCount = -1 then some 0
  else some linkCount

/-- The scraping mode a `link_count` request parameter selects. -/
inductive DetailMode where
  | fast
  | detailAll
  | detailLimited (n : Int)
  deriving Repr, DecidableEq

/-- Modelled from the spec: the backend sentinel convention documented for
the scrape endpoint — `link_count` absent (null) is fast mode, `0` visits
all detail pages, `N` visits `N` detail pages. -/
def linkCountMode (lc : Option Int) : DetailMode :=
  match lc with
  | none => .fast
  | some n => if n = 0 then .detailAll else .detailLimited n

/-! ## Frontend: the search hook's cancellation behaviour
(src/frontend/src/hooks/usePostcodeSearch.ts)

`search` is an async function; its effects on the React state are the
`setError` / `setScrapeMessage` / `setState` / `setResult` calls.  The
suspension points are the scrape await and the load await; the
`AbortController` signal may flip during either.  `searchTrace` replays
the function's control flow and records each state update paired with
whether this invocation's signal was already aborted when it ran. -/

/-- The hook's `SearchState` union. -/
inductive SearchUiState where
  | idle
  | checking
  | scraping
  | loading
  | done
  | error
  deriving Repr, DecidableEq

/-- The hook's scrape mode. -/
inductive SearchMode where
  | housePrices
  | forSale
  deriving Repr, DecidableEq

/-- One React state update performed by `search`. -/
inductive SearchEff where
  | setError (msg : Option String)
  | setScrapeMessage (msg : Option String)
  | setState (s : SearchUiState)
  | setResult (mode : SearchMode)
  deriving Repr, DecidableEq

/-- The environment of one `search` invocation: its arguments, what the
awaited API calls do, and at which suspension points the invocation's
abort signal flips. -/
structure SearchScript where
  postcode : String
  mode : SearchMode
  skipped : Bool
  scrapeMsg : String
  scrapeRejects : Bool
  errMsg : String
  loadRejects : Bool
  abortDuringScrape : Bool
  abortDuringLoad : Bool
  deriving Repr, DecidableEq

/-- From the source: `postcode.toUpperCase().replace(/[\s-]/g, "")`. -/
def cleanPostcode (s : String) : String :=
  String.mk ((s.data.map Char.toUpper).filter fun c => !(c.isWhitespace || c = '-'))

/-- An ASCII capital letter. -/
def isUpperLetter (c : Char) : Bool :=
  'A' ≤ c && c ≤ 'Z'

/-- From the source: the `FULL_POSTCODE_RE` test
`^[A-Z]{1,2}\d[A-Z\d]?\d[A-Z]{2}$`, spelled out by length. -/
def isFullPostcode (s : String) : Bool :=
  match s.data with
  | [a, b, c, d, e] =>
      isUpperLetter a && b.isDigit && c.isDigit && isUpperLetter d && isUpperLetter e
  | [a, b, c, d, e, f] =>
      (isUpperLetter a && isUpperLetter b && c.isDigit && d.isDigit &&
        isUpperLetter e && isUpperLetter f) ||
      (isUpperLetter a && b.isDigit && (isUpperLetter c || c.isDigit) && d.isDigit &&
        isUpperLetter e && isUpperLetter f)
  | [a, b, c, d, e, f, g] =>
      isUpperLetter a && isUpperLetter b && c.isDigit && (isUpperLetter d || d.isDigit) &&
        e.isDigit && isUpperLetter f && isUpperLetter g
  | _ => false

/-- Replay of `search`: each state update the invocation performs, paired
with whether the invocation's own abort signal was already aborted at that
moment.  Mirrors the source's order: clear error and message, set
`scraping`, await the scrape (single-postcode sets the skip message, area
always sets the message), abort check, set `loading`, abort check, await
the load, abort check, set the result and `done`; rejections land in the
catch block, which returns silently when aborted. -/
def searchTrace (inp : SearchScript) : List (SearchEff × Bool) :=
  let pre : List (SearchEff × Bool) :=
    [(.setError none, false), (.setScrapeMessage none, false),
     (.setState .scraping, false)]
  let isFull := isFullPostcode (cleanPostcode inp.postcode)
  let ab1 := inp.abortDuringScrape
  if inp.scrapeRejects then
    pre ++ (if ab1 then [] else
      [(.setError (some inp.errMsg), false), (.setState .error, false)])
  else
    let scrapeEffs : List (SearchEff × Bool) :=
      if isFull then
        if inp.skipped then [(.setScrapeMessage (some inp.scrapeMsg), ab1)] else []
      else [(.setScrapeMessage (some inp.scrapeMsg), ab1)]
    if ab1 then pre ++ scrapeEffs
    else
      let mid := scrapeEffs ++ [((.setState .loading : SearchEff), false)]
      let ab2 := inp.abortDuringLoad
      match inp.mode with
      | .forSale =>
          if inp.loadRejects then
            pre ++ mid ++ (if ab2 then [] else
              [(.setError (some inp.errMsg), false), (.setState .error, false)])
          else if ab2 then pre ++ mid
          else pre ++ mid ++
            [(.setResult .forSale, false), (.setState .done, false)]
      | .housePrices =>
          if ab2 then pre ++ mid
          else pre ++ mid ++
            [(.setResult .housePrices, false), (.setState .done, false)]

/-- The state updates `search` performs after its own signal is aborted. -/
def postAbortEffects (inp : SearchScript) : List SearchEff :=
  ((searchTrace inp).filter fun p => p.2).map fun p => p.1

/-- Whether an effect is the scrape-message status line setter. -/
def effIsScrapeMessage : SearchEff → Bool
  | .setScrapeMessage _ => true
  | _ => false

/-- A concrete invocation: an area (outcode) search whose abort signal
flips while the scrape request is in flight. -/
def abortedAreaSearch : SearchScript :=
  { postcode := "SW20", mode := .housePrices, skipped := false,
    scrapeMsg := "Scraped 12 postcodes", scrapeRejects := false,
    errMsg := "", loadRejects := false,
    abortDuringScrape := true, abortDuringLoad := false }

/-! ## Frontend: PropertyCard's JSON parsing
(src/frontend/src/components/PropertyCard.tsx) -/

/-- JSON values as `JSON.parse` produces them. -/
inductive Json where
  | null
  | boolean (b : Bool)
  | num (q : ℚ)
  | str (s : String)
  | arr (xs : List Json)
  | obj (kvs : List (String × Json))

/-- From the source: `parseJsonArray(raw)` — null or empty input, a parse
failure, or a non-array parse all yield `[]`; an array parse yields the
array.  `JSON.parse` (with its throw modelled as `Except`) is a
parameter. -/
def parseJsonArray (parse : String → Except String Json) (raw : Option String) :
    List Json :=
  match raw with
  | none => []
  | some s =>
      if s = "" then []
      else
        match parse s with
        | .error _ => []
        | .ok (.arr xs) => xs
        | .ok _ => []

/-! ## Frontend: heatmap colors (src/frontend/src/utils/colors.ts) -/

/-- From the source: `getColorIntensity(value, min, max)` with the
`max === min` guard before the division. -/
def getColorIntensity (value min max : ℚ) : String :=
  if max = min then "bg-blue-400"
  else if (value - min) / (max - min) > 0.8 then "bg-red-500 text-white"
  else if (value - min) / (max - min) > 0.6 then "bg-orange-400 text-white"
  else if (value - min) / (max - min) > 0.4 then "bg-yellow-400"
  else if (value - min) / (max - min) > 0.2 then "bg-green-400"
  else "bg-blue-400 text-white"

/-- The class strings of the blue bucket (the guard value and the lowest
ratio band). -/
def blueBucket : List String := ["bg-blue-400", "bg-blue-400 text-white"]

/-- The class string of the green bucket. -/
def greenBucket : List String := ["bg-green-400"]

/-- The class string of the yellow bucket. -/
def yellowBucket : List String := ["bg-yellow-400"]

/-- The class string of the orange bucket. -/
def orangeBucket : List String := ["bg-orange-400 text-white"]

/-- The class string of the red bucket. -/
def redBucket : List String := ["bg-red-500 text-white"]

/-! ## Lemmas about the merge/upsert engine -/

theorem saleKeyMem_append (sc : SaleCandidate) (xs ys : List PersistedSale) :
    saleKeyMem sc (xs ++ ys) = (saleKeyMem sc xs || saleKeyMem sc ys) := by
  simp [saleKeyMem, List.any_append]

theorem saleKeyMem_insertSaleIfAbsent_self (sales : List PersistedSale)
    (sc : SaleCandidate) : saleKeyMem sc (insertSaleIfAbsent sales sc).1 = true := by
  by_cases h : saleKeyMem sc sales = true
  · simp [insertSaleIfAbsent, h]
  · simp only [insertSaleIfAbsent, h]
    simp only [Bool.not_eq_true] at h
    simp [h, saleKeyMem_append, saleKeyMem]

theorem saleKeyMem_insertSaleIfAbsent_mono (sales : List PersistedSale)
    (sc sc' : SaleCandidate) (h : saleKeyMem sc sales = true) :
    saleKeyMem sc (insertSaleIfAbsent sales sc').1 = true := by
  by_cases h' : saleKeyMem sc' sales = true
  · simp [insertSaleIfAbsent, h', h]
  · simp only [Bool.not_eq_true] at h'
    simp [insertSaleIfAbsent, h', saleKeyMem_append, h]

theorem saleKeyMem_insertSales_mono (cs : List SaleCandidate)
    (sales : List PersistedSale) (sc : SaleCandidate)
    (h : saleKeyMem sc sales = true) :
    saleKeyMem sc (insertSales sales cs).1 = true := by
  induction cs generalizing sales with
  | nil => simpa [insertSales] using h
  | cons c rest ih =>
      simp only [insertSales]
      exact ih _ (saleKeyMem_insertSaleIfAbsent_mono sales sc c h)

theorem saleKeyMem_insertSales_of_mem (cs : List SaleCandidate)
    (sales : List PersistedSale) (sc : SaleCandidate) (h : sc ∈ cs) :
    saleKeyMem sc (insertSales sales cs).1 = true := by
  induction cs generalizing sales with
  | nil => cases h
  | cons c rest ih =>
      simp only [insertSales]
      rcases List.mem_cons.mp h with rfl | hmem
      · exact saleKeyMem_insertSales_mono rest _ sc
          (saleKeyMem_insertSaleIfAbsent_self sales sc)
      · exact ih _ hmem

theorem insertSales_all_present (cs : List SaleCandidate)
    (sales : List PersistedSale) (h : ∀ sc ∈ cs, saleKeyMem sc sales = true) :
    insertSales sales cs = (sales, 0) := by
  induction cs with
  | nil => simp [insertSales]
  | cons c rest ih =>
      have hc : saleKeyMem c sales = true := h c (List.mem_cons_self c rest)
      simp only [insertSales, insertSaleIfAbsent, hc, if_pos]
      simpa using ih fun sc hsc => h sc (List.mem_cons_of_mem c hsc)

theorem find?_replaceFirst (s : Store) (addr : String) (p2 : PersistedProperty)
    (p : PersistedProperty) (hfind : s.find? (fun q => q.address = addr) = some p)
    (haddr : p2.address = addr) :
    (replaceFirst s addr p2).find? (fun q => q.address = addr) = some p2 := by
  induction s with
  | nil => simp [List.find?] at hfind
  | cons q rest ih =>
      by_cases hq : q.address = addr
      · simp only [replaceFirst, if_pos hq]
        exact List.find?_cons_of_pos _ (by simp [haddr])
      · rw [List.find?_cons_of_neg _ (by simp [hq])] at hfind
        simp only [replaceFirst, if_neg hq]
        rw [List.find?_cons_of_neg _ (by simp [hq])]
        exact ih hfind

theorem totalSales_replaceFirst (s : Store) (addr : String)
    (p p2 : PersistedProperty)
    (hfind : s.find? (fun q => q.address = addr) = some p)
    (hlen : p2.sales.length = p.sales.length) :
    totalSales (replaceFirst s addr p2) = totalSales s := by
  induction s with
  | nil => simp [List.find?] at hfind
  | cons q rest ih =>
      by_cases hq : q.address = addr
      · rw [List.find?_cons_of_pos _ (by simp [hq])] at hfind
        cases hfind
        simp [replaceFirst, hq, totalSales, hlen]
      · rw [List.find?_cons_of_neg _ (by simp [hq])] at hfind
        simp [replaceFirst, hq, totalSales] at ih ⊢
        exact ih hfind

theorem applyCand_no_new (c : PropertyCandidate) (s : Store) (p : PersistedProperty)
    (haddr : ¬ c.address.trim = "")
    (hfind : s.find? (fun q => q.address = c.address.trim) = some p)
    (hall : ∀ sc ∈ c.sales, saleKeyMem sc p.sales = true) :
    totalSales (applyCand s c).2 = totalSales s ∧
      (applyCand s c).1.sales_inserted = 0 := by
  have hins := insertSales_all_present c.sales p.sales hall
  refine ⟨?_, ?_⟩
  · simp only [applyCand, if_neg haddr, hfind, hins]
    exact totalSales_replaceFirst s _ p _ hfind rfl
  · simp [applyCand, if_neg haddr, hfind, hins]

/-- C1: Merge is idempotent on sales — applying the same `PropertyCandidate`
twice in succession does not change the persisted sale count after the first
application, and the second apply inserts zero new sales, because a sale
already present under its (property, date_sold, price) identity tuple is
never duplicated. -/
theorem merge_idempotent_on_sales (c : PropertyCandidate) (s : Store) :
    totalSales (applyCand (applyCand s c).2 c).2 = totalSales (applyCand s c).2 ∧
      (applyCand (applyCand s c).2 c).1.sales_inserted = 0 := by
  by_cases haddr : c.address.trim = ""
  · simp [applyCand, haddr]
  · rcases hfind : s.find? (fun q => q.address = c.address.trim) with _ | p
    · have hs1 : (applyCand s c).2 =
          s ++ [newRow c.address.trim c (insertSales [] c.sales).1] := by
        simp [applyCand, if_neg haddr, hfind]
      have hfind1 : ((s ++ [newRow c.address.trim c (insertSales [] c.sales).1]).find?
          (fun q => q.address = c.address.trim)) =
            some (newRow c.address.trim c (insertSales [] c.sales).1) := by
        rw [List.find?_append, hfind]
        simp [List.find?, newRow]
      have hall : ∀ sc ∈ c.sales,
          saleKeyMem sc (newRow c.address.trim c (insertSales [] c.sales).1).sales = true :=
        fun sc hsc => saleKeyMem_insertSales_of_mem c.sales [] sc hsc
      rw [hs1]
      exact applyCand_no_new c _ _ haddr hfind1 hall
    · have hp : p.address = c.address.trim := by
        simpa using List.find?_some hfind
      have hmaddr :
          ({ mergeProperty p c with sales := (insertSales p.sales c.sales).1 }
            : PersistedProperty).address = c.address.trim := hp
      have hs1 : (applyCand s c).2 = replaceFirst s c.address.trim
          { mergeProperty p c with sales := (insertSales p.sales c.sales).1 } := by
        simp [applyCand, if_neg haddr, hfind]
      have hfind1 := find?_replaceFirst s c.address.trim
        { mergeProperty p c with sales := (insertSales p.sales c.sales).1 } p hfind hmaddr
      have hall : ∀ sc ∈ c.sales, saleKeyMem sc
          ({ mergeProperty p c with sales := (insertSales p.sales c.sales).1 }
            : PersistedProperty).sales = true :=
        fun sc hsc => saleKeyMem_insertSales_of_mem c.sales p.sales sc hsc
      rw [hs1]
      exact applyCand_no_new c _ _ haddr hfind1 hall

/-- C2: Merge is non-destructive field-by-field — a field of the persisted
property is overwritten only when the candidate's corresponding field is
non-empty/non-null, and is preserved otherwise (the address, the identity
key, is always kept). -/
theorem merge_nondestructive (p : PersistedProperty) (c : PropertyCandidate) :
    (mergeProperty p c).address = p.address ∧
    (c.bedrooms = none → (mergeProperty p c).bedrooms = p.bedrooms) ∧
    (∀ v, c.bedrooms = some v → (mergeProperty p c).bedrooms = some v) ∧
    (c.bathrooms = none → (mergeProperty p c).bathrooms = p.bathrooms) ∧
    (∀ v, c.bathrooms = some v → (mergeProperty p c).bathrooms = some v) ∧
    ((c.postcode = none ∨ c.postcode = some "") →
      (mergeProperty p c).postcode = p.postcode) ∧
    (∀ v, c.postcode = some v → v ≠ "" → (mergeProperty p c).postcode = some v) ∧
    ((c.property_type = none ∨ c.property_type = some "") →
      (mergeProperty p c).property_type = p.property_type) ∧
    (∀ v, c.property_type = some v → v ≠ "" →
      (mergeProperty p c).property_type = some v) ∧
    ((c.url = none ∨ c.url = some "") → (mergeProperty p c).url = p.url) ∧
    (∀ v, c.url = some v → v ≠ "" → (mergeProperty p c).url = some v) ∧
    (c.extra_features = [] → (mergeProperty p c).extra_features = p.extra_features) ∧
    (c.extra_features ≠ [] → (mergeProperty p c).extra_features = c.extra_features) ∧
    (c.floorplan_urls = [] → (mergeProperty p c).floorplan_urls = p.floorplan_urls) ∧
    (c.floorplan_urls ≠ [] → (mergeProperty p c).floorplan_urls = c.floorplan_urls) := by
  refine ⟨rfl, ?_, ?_, ?_, ?_, ?_, ?_, ?_, ?_, ?_, ?_, ?_, ?_, ?_, ?_⟩
  · intro h; simp [mergeProperty, mergeOptField, h]
  · intro v h; simp [mergeProperty, mergeOptField, h]
  · intro h; simp [mergeProperty, mergeOptField, h]
  · intro v h; simp [mergeProperty, mergeOptField, h]
  · rintro (h | h) <;> simp [mergeProperty, mergeStrField, h]
  · intro v h hv; simp [mergeProperty, mergeStrField, h, hv]
  · rintro (h | h) <;> simp [mergeProperty, mergeStrField, h]
  · intro v h hv; simp [mergeProperty, mergeStrField, h, hv]
  · rintro (h | h) <;> simp [mergeProperty, mergeStrField, h]
  · intro v h hv; simp [mergeProperty, mergeStrField, h, hv]
  · intro h; simp [mergeProperty, mergeListField, h]
  · intro h
    cases hfe : c.extra_features with
    | nil => exact absurd hfe h
    | cons a l => simp [mergeProperty, mergeListField, hfe]
  · intro h; simp [mergeProperty, mergeListField, h]
  · intro h
    cases hfe : c.floorplan_urls with
    | nil => exact absurd hfe h
    | cons a l => simp [mergeProperty, mergeListField, hfe]

/-- Witness for C2 at the spec's own example: a persisted property with
bedrooms = 3 merged with a candidate whose bedrooms field is null keeps
bedrooms = 3. -/
theorem merge_nondestructive_witness :
    (mergeProperty
      { address := "1 Example St", postcode := none, property_type := none,
        bedrooms := some 3, bathrooms := none, url := none,
        extra_features := [], floorplan_urls := [], sales := [] }
      { address := "1 Example St", postcode := none, property_type := none,
        bedrooms := none, bathrooms := none, url := none,
        extra_features := [], floorplan_urls := [], sales := [] }).bedrooms =
      some 3 :=
  ((merge_nondestructive
      { address := "1 Example St", postcode := none, property_type := none,
        bedrooms := some 3, bathrooms := none, url := none,
        extra_features := [], floorplan_urls := [], sales := [] }
      { address := "1 Example St", postcode := none, property_type := none,
        bedrooms := none, bathrooms := none, url := none,
        extra_features := [], floorplan_urls := [], sales := [] }).2.1 rfl).trans
    rfl

/-! ## Lemmas about the reference resolver -/

mutual
theorem resolvePre_ok_of_refsBelow (table : List ResolvedValue) (e : PreValue)
    (h : refsBelow table.length e = true) : ∃ v, resolvePre table e = .ok v := by
  cases e with
  | scalar v => exact ⟨_, rfl⟩
  | ref i =>
      simp only [refsBelow, decide_eq_true_eq] at h
      exact ⟨table.get ⟨i, h⟩, by simp [resolvePre, List.getElem?_eq_getElem h]⟩
  | arr xs =>
      obtain ⟨vs, hvs⟩ := resolvePreList_ok_of_refsBelow table xs h
      exact ⟨.list vs, by simp [resolvePre, hvs]⟩
  | obj kvs =>
      obtain ⟨vs, hvs⟩ := resolvePreKvs_ok_of_refsBelow table kvs h
      exact ⟨.map vs, by simp [resolvePre, hvs]⟩

theorem resolvePreList_ok_of_refsBelow (table : List ResolvedValue) (xs : PreList)
    (h : refsBelowList table.length xs = true) :
    ∃ vs, resolvePreList table xs = .ok vs := by
  cases xs with
  | nil => exact ⟨[], rfl⟩
  | cons x xs =>
      simp only [refsBelowList, Bool.and_eq_true] at h
      obtain ⟨v, hv⟩ := resolvePre_ok_of_refsBelow table x h.1
      obtain ⟨vs, hvs⟩ := resolvePreList_ok_of_refsBelow table xs h.2
      exact ⟨v :: vs, by simp [resolvePreList, hv, hvs]⟩

theorem resolvePreKvs_ok_of_refsBelow (table : List ResolvedValue) (kvs : PreKvs)
    (h : refsBelowKvs table.length kvs = true) :
    ∃ vs, resolvePreKvs table kvs = .ok vs := by
  cases kvs with
  | nil => exact ⟨[], rfl⟩
  | cons k v kvs =>
      simp only [refsBelowKvs, Bool.and_eq_true] at h
      obtain ⟨v2, hv⟩ := resolvePre_ok_of_refsBelow table v h.1
      obtain ⟨vs, hvs⟩ := resolvePreKvs_ok_of_refsBelow table kvs h.2
      exact ⟨(k, v2) :: vs, by simp [resolvePreKvs, hv, hvs]⟩
end

mutual
theorem resolvePre_err_of_not_refsBelow (table : List ResolvedValue) (e : PreValue)
    (h : refsBelow table.length e = false) :
    resolvePre table e = .error .danglingReference := by
  cases e with
  | scalar v => simp [refsBelow] at h
  | ref i =>
      simp only [refsBelow, decide_eq_false_iff_not, not_lt] at h
      simp [resolvePre, List.getElem?_eq_none h]
  | arr xs =>
      simp [resolvePre, resolvePreList_err_of_not_refsBelow table xs h]
  | obj kvs =>
      simp [resolvePre, resolvePreKvs_err_of_not_refsBelow table kvs h]

theorem resolvePreList_err_of_not_refsBelow (table : List ResolvedValue) (xs : PreList)
    (h : refsBelowList table.length xs = false) :
    resolvePreList table xs = .error .danglingReference := by
  cases xs with
  | nil => simp [refsBelowList] at h
  | cons x xs =>
      rcases hx : refsBelow table.length x with _ | _
      · simp [resolvePreList, resolvePre_err_of_not_refsBelow table x hx]
      · simp only [refsBelowList, hx, Bool.true_and] at h
        obtain ⟨v, hv⟩ := resolvePre_ok_of_refsBelow table x hx
        simp [resolvePreList, hv, resolvePreList_err_of_not_refsBelow table xs h]

theorem resolvePreKvs_err_of_not_refsBelow (table : List ResolvedValue) (kvs : PreKvs)
    (h : refsBelowKvs table.length kvs = false) :
    resolvePreKvs table kvs = .error .danglingReference := by
  cases kvs with
  | nil => simp [refsBelowKvs] at h
  | cons k v kvs =>
      rcases hx : refsBelow table.length v with _ | _
      · simp [resolvePreKvs, resolvePre_err_of_not_refsBelow table v hx]
      · simp only [refsBelowKvs, hx, Bool.true_and] at h
        obtain ⟨v2, hv⟩ := resolvePre_ok_of_refsBelow table v hx
        simp [resolvePreKvs, hv, resolvePreKvs_err_of_not_refsBelow table kvs h]
end

theorem resolveGo_ok_of_backward (es : List PreValue) :
    ∀ table : List ResolvedValue, backwardOnlyFrom table.length es = true →
      ∃ vs, resolveGo table es = .ok vs := by
  induction es with
  | nil => exact fun table _ => ⟨table, rfl⟩
  | cons e es ih =>
      intro table h
      simp only [backwardOnlyFrom, Bool.and_eq_true] at h
      obtain ⟨v, hv⟩ := resolvePre_ok_of_refsBelow table e h.1
      obtain ⟨vs, hvs⟩ := ih (table ++ [v]) (by simpa using h.2)
      exact ⟨vs, by simp [resolveGo, hv, hvs]⟩

theorem resolveGo_err_of_not_backward (es : List PreValue) :
    ∀ table : List ResolvedValue, backwardOnlyFrom table.length es = false →
      resolveGo table es = .error .danglingReference := by
  induction es with
  | nil => intro table h; simp [backwardOnlyFrom] at h
  | cons e es ih =>
      intro table h
      rcases he : refsBelow table.length e with _ | _
      · simp [resolveGo, resolvePre_err_of_not_refsBelow table e he]
      · simp only [backwardOnlyFrom, he, Bool.true_and] at h
        obtain ⟨v, hv⟩ := resolvePre_ok_of_refsBelow table e he
        simp [resolveGo, hv, ih (table ++ [v]) (by simpa using h)]

/-- C3: Reference resolution rejects forward references and resolves all
backward ones — a sequence containing only backward references resolves
successfully (and the result type `ResolvedValue` cannot contain an
unresolved marker), while any sequence with an out-of-range or
not-yet-resolved reference fails with `DanglingReference` rather than
silently ignoring it. -/
theorem resolver_backward_refs (es : List PreValue) :
    (backwardOnly es = true → ∃ vs, resolve es = .ok vs) ∧
    (backwardOnly es = false → resolve es = .error .danglingReference) := by
  constructor
  · intro h
    exact resolveGo_ok_of_backward es [] (by simpa [backwardOnly] using h)
  · intro h
    exact resolveGo_err_of_not_backward es [] (by simpa [backwardOnly] using h)

/-- Witness for C3: the spec's backward-reference scenario resolves
successfully, and a forward reference yields `DanglingReference`. -/
theorem resolver_backward_refs_witness :
    (∃ vs, resolve demoBackwardEntries = .ok vs) ∧
      resolve demoForwardEntries = .error .danglingReference :=
  ⟨(resolver_backward_refs demoBackwardEntries).1 rfl,
   (resolver_backward_refs demoForwardEntries).2 rfl⟩

mutual
theorem refMem_lt_of_refsBelow (bound : Nat) (e : PreValue)
    (h : refsBelow bound e = true) (j : Nat) (hj : refMem j e = true) :
    j < bound := by
  cases e with
  | scalar v => simp [refMem] at hj
  | ref i =>
      simp only [refsBelow, decide_eq_true_eq] at h
      simp only [refMem, decide_eq_true_eq] at hj
      omega
  | arr xs => exact refMemList_lt_of_refsBelow bound xs h j hj
  | obj kvs => exact refMemKvs_lt_of_refsBelow bound kvs h j hj

theorem refMemList_lt_of_refsBelow (bound : Nat) (xs : PreList)
    (h : refsBelowList bound xs = true) (j : Nat) (hj : refMemList j xs = true) :
    j < bound := by
  cases xs with
  | nil => simp [refMemList] at hj
  | cons x xs =>
      simp only [refsBelowList, Bool.and_eq_true] at h
      simp only [refMemList, Bool.or_eq_true] at hj
      rcases hj with hj | hj
      · exact refMem_lt_of_refsBelow bound x h.1 j hj
      · exact refMemList_lt_of_refsBelow bound xs h.2 j hj

theorem refMemKvs_lt_of_refsBelow (bound : Nat) (kvs : PreKvs)
    (h : refsBelowKvs bound kvs = true) (j : Nat) (hj : refMemKvs j kvs = true) :
    j < bound := by
  cases kvs with
  | nil => simp [refMemKvs] at hj
  | cons k v kvs =>
      simp only [refsBelowKvs, Bool.and_eq_true] at h
      simp only [refMemKvs, Bool.or_eq_true] at hj
      rcases hj with hj | hj
      · exact refMem_lt_of_refsBelow bound v h.1 j hj
      · exact refMemKvs_lt_of_refsBelow bound kvs h.2 j hj
end

theorem backwardOnlyFrom_get (es : List PreValue) :
    ∀ k, backwardOnlyFrom k es = true →
      ∀ p (hp : p < es.length), refsBelow (k + p) (es.get ⟨p, hp⟩) = true := by
  induction es with
  | nil => intro k _ p hp; simp at hp
  | cons e es ih =>
      intro k h p hp
      simp only [backwardOnlyFrom, Bool.and_eq_true] at h
      cases p with
      | zero => simpa using h.1
      | succ p =>
          have := ih (k + 1) h.2 p (by simpa using Nat.lt_of_succ_lt_succ hp)
          simpa [Nat.add_assoc, Nat.add_comm 1 p] using this

theorem resolve_ok_backwardOnly (es : List PreValue) (vs : List ResolvedValue)
    (h : resolve es = .ok vs) : backwardOnly es = true := by
  rcases hb : backwardOnly es with _ | _
  · have := resolveGo_err_of_not_backward es []
      (by simpa [backwardOnly] using hb)
    rw [resolve] at h
    rw [this] at h
    cases h
  · rfl

/-- C6: Reference resolution terminates on every input (`resolve` is a
total function), and any cycle back to an ancestor is reported as
`DanglingReference` rather than looping; consequently every successfully
resolved value graph is a DAG — each entry's references point strictly
backward, and the reference graph has no cycle through any position. -/
theorem resolve_graph_dag (es : List PreValue) (vs : List ResolvedValue)
    (h : resolve es = .ok vs) :
    (∀ a b, RefEdge es a b → b < a) ∧
      ∀ p, ¬ Relation.TransGen (RefEdge es) p p := by
  have hb : backwardOnly es = true := resolve_ok_backwardOnly es vs h
  have hedge : ∀ a b, RefEdge es a b → b < a := by
    rintro a b ⟨ha, hmem⟩
    have h1 := backwardOnlyFrom_get es 0 (by simpa [backwardOnly] using hb) a ha
    exact refMem_lt_of_refsBelow a _ (by simpa using h1) b hmem
  refine ⟨hedge, fun p htg => ?_⟩
  have hlt : ∀ a c, Relation.TransGen (RefEdge es) a c → c < a := by
    intro a c htg2
    induction htg2 with
    | single h1 => exact hedge _ _ h1
    | tail _ h2 ih => exact lt_trans (hedge _ _ h2) ih
  exact absurd (hlt p p htg) (lt_irrefl p)

/-- Witness for C6: on the concrete backward-reference stream, the
resolved reference graph is acyclic and its one edge points backward. -/
theorem resolve_graph_dag_witness :
    (∀ a b, RefEdge demoBackwardEntries a b → b < a) ∧
      ¬ Relation.TransGen (RefEdge demoBackwardEntries) 1 1 :=
  ⟨(resolve_graph_dag demoBackwardEntries demoBackwardValues rfl).1,
   (resolve_graph_dag demoBackwardEntries demoBackwardValues rfl).2 1⟩

/-! ## Lemmas about the stream token decoder -/

theorem foldl_append_data (cs : List String) :
    ∀ acc : String, (cs.foldl (· ++ ·) acc).data =
      acc.data ++ (cs.map String.data).flatten := by
  induction cs with
  | nil => intro acc; simp
  | cons c cs ih =>
      intro acc
      simp only [List.foldl_cons, List.map_cons, List.flatten_cons]
      rw [ih (acc ++ c), String.data_append, List.append_assoc]

theorem data_join (cs : List String) :
    (String.join cs).data = (cs.map String.data).flatten := by
  simpa [String.join] using foldl_append_data cs ""

/-- C4: Decoding is invariant under chunk boundaries — for every payload
and every split of it into enqueued chunks, even mid-token, decoding the
chunk sequence gives exactly the result of decoding the unsplit
concatenation. -/
theorem decode_chunk_boundary_invariant (payload : String) (chunks : List String)
    (h : String.join chunks = payload) :
    decodeChunks chunks = decode payload := by
  subst h
  unfold decodeChunks decode
  congr 1
  rw [data_join, List.foldl_flatten, List.foldl_map]
  rfl

/-- Witness for C4: the payload `["hello",12]` split mid-string and
mid-number decodes exactly like the unsplit payload. -/
theorem decode_chunk_boundary_invariant_witness :
    String.join ["[\"hel", "lo\",1", "2]"] = "[\"hello\",12]" ∧
      decodeChunks ["[\"hel", "lo\",1", "2]"] = decode "[\"hello\",12]" :=
  ⟨rfl, decode_chunk_boundary_invariant "[\"hello\",12]" ["[\"hel", "lo\",1", "2]"] rfl⟩

/-! ## Lemmas about the resilient fetcher -/

theorem fetchGo_all_503 (cfg : FetchConfig) (oracle : Nat → HttpOutcome)
    (jitter : Nat → Nat) (h503 : ∀ i, oracle i = .status 503) :
    ∀ (n attempt : Nat) (waits : List Nat),
      fetchGo cfg oracle jitter n attempt waits =
        { result := .exhausted (.status 503),
          attemptsMade := attempt + n + 1,
          waits := waits ++ (List.range n).map
            (fun k => backoffDelay cfg (attempt + k) + jitter (attempt + k)) } := by
  intro n
  induction n with
  | zero =>
      intro attempt waits
      rw [fetchGo]
      simp [h503 attempt, retryable]
  | succ m ih =>
      intro attempt waits
      rw [fetchGo]
      simp only [h503 attempt, retryable]
      norm_num
      rw [ih (attempt + 1) (waits ++ [backoffDelay cfg attempt + jitter attempt])]
      congr 1
      · omega
      · rw [List.range_succ_eq_map, List.map_cons, List.map_map, List.append_assoc]
        simp [Nat.add_assoc, Nat.add_comm 1]

/-- C5: Retry ceiling — when every HTTP attempt returns status 503, the
fetch makes exactly `retry_attempts + 1` attempts, returns
`Exhausted(last status)`, and sleeps exactly `retry_attempts` waits, each
between the capped exponential `base_backoff * 2^attempt` and that value
plus the jitter bound. -/
theorem fetch_retry_ceiling (cfg : FetchConfig) (oracle : Nat → HttpOutcome)
    (jitter : Nat → Nat) (J : Nat)
    (h503 : ∀ i, oracle i = .status 503) (hJ : ∀ i, jitter i ≤ J) :
    (fetch cfg oracle jitter).attemptsMade = cfg.retry_attempts + 1 ∧
    (fetch cfg oracle jitter).result = .exhausted (.status 503) ∧
    (fetch cfg oracle jitter).waits.length = cfg.retry_attempts ∧
    ∀ i, i < cfg.retry_attempts →
      backoffDelay cfg i ≤ (fetch cfg oracle jitter).waits.getD i 0 ∧
        (fetch cfg oracle jitter).waits.getD i 0 ≤ backoffDelay cfg i + J := by
  have h := fetchGo_all_503 cfg oracle jitter h503 cfg.retry_attempts 0 []
  unfold fetch
  rw [h]
  refine ⟨by simp, rfl, by simp, ?_⟩
  intro i hi
  have hlen : i < ((List.range cfg.retry_attempts).map
      (fun k => backoffDelay cfg (0 + k) + jitter (0 + k))).length := by
    simpa using hi
  have hval : (((List.range cfg.retry_attempts).map
      (fun k => backoffDelay cfg (0 + k) + jitter (0 + k))).getD i 0) =
      backoffDelay cfg i + jitter i := by
    rw [List.getD_eq_getElem?_getD, List.getElem?_eq_getElem hlen]
    simp
  simp only [List.nil_append, hval]
  exact ⟨Nat.le_add_right _ _, Nat.add_le_add_left (hJ i) _⟩

/-- Witness for C5 at a concrete configuration (3 retries, base backoff
1000, cap 4000, zero jitter): four attempts, `Exhausted(503)`, and the
third wait at least the scheduled backoff. -/
theorem fetch_retry_ceiling_witness :
    (fetch ⟨3, 1000, 4000⟩ (fun _ => .status 503) (fun _ => 0)).attemptsMade = 3 + 1 ∧
    (fetch ⟨3, 1000, 4000⟩ (fun _ => .status 503) (fun _ => 0)).result =
      .exhausted (.status 503) ∧
    backoffDelay ⟨3, 1000, 4000⟩ 2 ≤
      (fetch ⟨3, 1000, 4000⟩ (fun _ => .status 503) (fun _ => 0)).waits.getD 2 0 :=
  have h := fetch_retry_ceiling ⟨3, 1000, 4000⟩ (fun _ => .status 503) (fun _ => 0) 0
    (fun _ => rfl) (fun _ => Nat.le_refl 0)
  ⟨h.1, h.2.1, (h.2.2.2 2 (by decide)).1⟩

/-! ## Theorems about the frontend -/

/-- C7: The link_count sentinel convention holds end to end — the backend
treats an absent `link_count` as fast mode, `0` as "all detail pages" and
`N` as a detail limit, while the frontend maps UI linkCount `0` to an
omitted parameter, `-1` to `0`, and passes any other value through, so a
positive UI value selects exactly that detail limit. -/
theorem link_count_sentinel :
    apiLinkCount 0 = none ∧
    apiLinkCount (-1) = some 0 ∧
    (∀ lc : Int, lc ≠ 0 → lc ≠ -1 → apiLinkCount lc = some lc) ∧
    linkCountMode none = .fast ∧
    linkCountMode (some 0) = .detailAll ∧
    (∀ n : Int, n ≠ 0 → linkCountMode (some n) = .detailLimited n) ∧
    linkCountMode (apiLinkCount 0) = .fast ∧
    linkCountMode (apiLinkCount (-1)) = .detailAll ∧
    (∀ n : Int, 0 < n → linkCountMode (apiLinkCount n) = .detailLimited n) := by
  refine ⟨rfl, rfl, ?_, rfl, rfl, ?_, rfl, rfl, ?_⟩
  · intro lc h0 h1
    simp [apiLinkCount, h0, h1]
  · intro n h0
    simp [linkCountMode, h0]
  · intro n h0
    have h1 : n ≠ 0 := by omega
    have h2 : n ≠ -1 := by omega
    simp [apiLinkCount, linkCountMode, h1, h2]

/-- Witness for C7: the UI value 5 reaches the backend as `link_count=5`
and selects a five-page detail limit. -/
theorem link_count_sentinel_witness :
    apiLinkCount 5 = some 5 ∧
      linkCountMode (apiLinkCount 5) = .detailLimited 5 :=
  ⟨link_count_sentinel.2.2.1 5 (by decide) (by decide),
   link_count_sentinel.2.2.2.2.2.2.2.2 5 (by decide)⟩

/-- C8 counterexample: aborting during the scrape await of an area search
does not stop all further state updates — the scrape message is still set
after the abort, because the message-setting line precedes the first abort
check. -/
theorem search_updates_after_abort :
    postAbortEffects abortedAreaSearch =
      [.setScrapeMessage (some "Scraped 12 postcodes")] ∧
    postAbortEffects abortedAreaSearch ≠ [] := by
  refine ⟨by decide, by decide⟩

/-- C8 as amended: once the invocation's signal is aborted, `result`,
`error` and the search state are never modified — the only state update
that can still run after an abort is the scrape-message status line, which
the source sets before its first abort check. -/
theorem search_no_state_after_abort (inp : SearchScript) :
    (postAbortEffects inp).all effIsScrapeMessage = true := by
  rcases inp with ⟨pc, mode, skipped, msg, srej, emsg, lrej, ab1, ab2⟩
  unfold postAbortEffects searchTrace
  rcases hfull : isFullPostcode (cleanPostcode pc) with _ | _ <;>
    cases mode <;> cases skipped <;> cases srej <;> cases lrej <;>
    cases ab1 <;> cases ab2 <;>
    simp [hfull, effIsScrapeMessage]

/-- C9: `parseJsonArray` is total and never throws — for any parser
behaviour and any input it returns a list: the empty list when the input
is null or empty, when parsing fails, or when the parse is not an array,
and the parsed array otherwise. -/
theorem parseJsonArray_total (parse : String → Except String Json)
    (raw : Option String) :
    (raw = none → parseJsonArray parse raw = []) ∧
    (raw = some "" → parseJsonArray parse raw = []) ∧
    (∀ s e, raw = some s → parse s = .error e → parseJsonArray parse raw = []) ∧
    (∀ s j, raw = some s → parse s = .ok j → (∀ xs, j ≠ .arr xs) →
      parseJsonArray parse raw = []) ∧
    (∀ s xs, raw = some s → s ≠ "" → parse s = .ok (.arr xs) →
      parseJsonArray parse raw = xs) := by
  refine ⟨?_, ?_, ?_, ?_, ?_⟩
  · rintro rfl; rfl
  · rintro rfl; rfl
  · rintro s e rfl hp
    by_cases hs : s = ""
    · simp [parseJsonArray, hs]
    · simp [parseJsonArray, hs, hp]
  · rintro s j rfl hp hna
    by_cases hs : s = ""
    · simp [parseJsonArray, hs]
    · cases j with
      | arr xs => exact absurd rfl (hna xs)
      | null => simp [parseJsonArray, hs, hp]
      | boolean b => simp [parseJsonArray, hs, hp]
      | num q => simp [parseJsonArray, hs, hp]
      | str s2 => simp [parseJsonArray, hs, hp]
      | obj kvs => simp [parseJsonArray, hs, hp]
  · rintro s xs rfl hs hp
    simp [parseJsonArray, hs, hp]

/-- Witness for C9: a well-formed stored array renders as its elements,
and a malformed stored JSON string renders as zero elements instead of
crashing. -/
theorem parseJsonArray_total_witness :
    parseJsonArray (fun _ => .ok (.arr [.num 1])) (some "[1]") = [.num 1] ∧
      parseJsonArray (fun _ => .error "SyntaxError") (some "not json") = [] :=
  ⟨(parseJsonArray_total (fun _ => .ok (.arr [.num 1])) (some "[1]")).2.2.2.2
      "[1]" [.num 1] rfl (by decide) rfl,
   (parseJsonArray_total (fun _ => .error "SyntaxError") (some "not json")).2.2.1
      "not json" "SyntaxError" rfl rfl⟩

/-- C10: `getColorIntensity` is total — when `max = min` the guard returns
`"bg-blue-400"` before any division, and for every input the result is one
of the fixed Tailwind class strings of the blue, green, yellow, orange and
red buckets. -/
theorem getColorIntensity_total (value min max : ℚ) :
    (max = min → getColorIntensity value min max = "bg-blue-400") ∧
    getColorIntensity value min max ∈
      blueBucket ++ greenBucket ++ yellowBucket ++ orangeBucket ++ redBucket := by
  constructor
  · intro h
    simp [getColorIntensity, h]
  · unfold getColorIntensity
    split_ifs <;>
      simp [blueBucket, greenBucket, yellowBucket, orangeBucket, redBucket]

/-- Witness for C10: the guard case and an interior case both land in the
bucket set. -/
theorem getColorIntensity_total_witness :
    getColorIntensity 5 2 2 = "bg-blue-400" ∧
      getColorIntensity 3 0 10 ∈
        blueBucket ++ greenBucket ++ yellowBucket ++ orangeBucket ++ redBucket :=
  ⟨(getColorIntensity_total 5 2 2).1 rfl, (getColorIntensity_total 3 0 10).2⟩

end RightmoveApi
